import Mathlib

/-!
# Verification of the `WorkersFactory` worker-pool scheduler

Shallow embedding of the worker-pool scheduler of `@youwol/pyodide-helpers`
(`workers-factory.ts`): the pool state (`workers$`, `busyWorkers$`,
`runningTasks$`, `tasksQueue`), the dispatch algorithm (`pickTask`), the
release path (`workerReleased$` subscription), worker creation
(`createWorker$`, `reserve`, `getIdleWorkerOrCreate$`), scheduling
(`schedule`), the per-task channel (`getTaskChannel$`) and the in-worker
entry point (`entryPointWorker`).

Conventions of the embedding:
* JS object maps keyed by insertion order (`workers$.value`) become lists of
  keys in insertion order; `Object.keys(..).find(..)` becomes `List.find?`.
* Random id generation (`t${random}`, `w${random}`) is modelled by passing
  the generated id as an explicit argument.
* RxJS observables that fire synchronously (`of`, `Subject.next` to an
  already-registered subscriber) are inlined as function calls; asynchronous
  emissions (a created worker's install `Exit`) become explicit events.
* `Context.withChild` (module `../context`, not part of the scheduler file)
  only wraps the callback for logging and propagates its result and
  exceptions; it is modelled as transparent application.  A synchronous JS
  `throw` escaping `schedule` is modelled by `Except.error`.
-/

abbrev WorkerId := String
abbrev TaskId := String

/-- One entry of `WorkersFactory.tasksQueue`:
`{ taskId, targetWorkerId?, args, channel$, entryPoint }` (the payload
`args`/`entryPoint`/`channel$` plays no role in scheduling decisions). -/
structure QueuedTask where
  taskId : TaskId
  targetWorkerId : Option WorkerId
deriving Repr, DecidableEq

/-- The scheduler-visible state of one `WorkersFactory`:
`poolSize` (the constant `navigator.hardwareConcurrency - 2`),
the keys of `workers$.value` in insertion order, `busyWorkers$.value`,
`runningTasks$.value` and `tasksQueue`. -/
structure PoolState where
  poolSize : Nat
  workers : List WorkerId
  busyWorkers : List WorkerId
  runningTasks : List (WorkerId × TaskId)
  tasksQueue : List QueuedTask
deriving Repr, DecidableEq

/-- Messages posted by the orchestrator to a worker
(`worker.postMessage({type: 'Execute', ...})`): a task dispatch from
`pickTask`, or the installer dispatch from `createWorker$`. -/
inductive OutMsg where
  | execute (workerId : WorkerId) (taskId : TaskId)
  | installExecute (workerId : WorkerId)
deriving Repr, DecidableEq

/-- Predicate of the emptiness check at the top of `pickTask`:
`task.targetWorkerId == undefined || task.targetWorkerId == workerId`. -/
def queueFilterPred (workerId : WorkerId) (t : QueuedTask) : Bool :=
  t.targetWorkerId == none || t.targetWorkerId == some workerId

/-- Predicate of the `find` in `pickTask`:
`t.targetWorkerId ? t.targetWorkerId === workerId : true`. -/
def findPred (workerId : WorkerId) (t : QueuedTask) : Bool :=
  match t.targetWorkerId with
  | some w => w == workerId
  | none => true

/-- `WorkersFactory.pickTask(workerId, context)`.
If no queued task is eligible for `workerId`, return with no state change.
Otherwise append `workerId` to `busyWorkers$`, take the first eligible
queued task, drop every queue entry sharing its `taskId`, append
`(workerId, taskId)` to `runningTasks$`, and post one `Execute` to
`workers$.value[workerId].worker`.  (When `workerId` is not a key of
`workers$.value` the JS code throws a `TypeError` at the
`this.workers$.value[workerId].worker` access, after the state updates and
before any message is posted; the model then emits no message.) -/
def pickTask (workerId : WorkerId) (s : PoolState) : PoolState × List OutMsg :=
  if (s.tasksQueue.filter (queueFilterPred workerId)).length == 0 then
    (s, [])
  else
    match s.tasksQueue.find? (findPred workerId) with
    | none => (s, [])
    | some t =>
      let s1 : PoolState :=
        { s with
          busyWorkers := s.busyWorkers ++ [workerId]
          tasksQueue := s.tasksQueue.filter (fun q => q.taskId != t.taskId)
          runningTasks := s.runningTasks ++ [(workerId, t.taskId)] }
      if workerId ∈ s.workers then (s1, [OutMsg.execute workerId t.taskId])
      else (s1, [])

/-- Body of the `workerReleased$` subscription installed in the
`WorkersFactory` constructor: drop the worker from `busyWorkers$`, drop
every running-task entry with the released `taskId` from `runningTasks$`,
then call `pickTask` on that worker. -/
def workerReleased (workerId : WorkerId) (taskId : TaskId) (s : PoolState) :
    PoolState × List OutMsg :=
  pickTask workerId
    { s with
      busyWorkers := s.busyWorkers.filter (fun wId => wId != workerId)
      runningTasks := s.runningTasks.filter (fun task => task.2 != taskId) }

/-- Tags of `MessageEventData.type`. -/
inductive MsgType where
  | Execute
  | installScript
  | Exit
  | Start
  | Log
  | DependencyInstalled
  | Data
deriving Repr, DecidableEq

/-- The `data` part of a worker message; every variant carries `taskId` and
`workerId`, and `Exit` additionally `error` and `result` (results are
opaque to the scheduler and modelled as naturals). -/
structure MsgData where
  taskId : TaskId
  workerId : WorkerId
  error : Bool := false
  result : Nat := 0
deriving Repr, DecidableEq

/-- One `MessageEventData` flowing worker → orchestrator. -/
structure Msg where
  type : MsgType
  data : MsgData
deriving Repr, DecidableEq

/-- Body of the per-task-channel subscription installed by `pickTask`: any
message of type `Exit` observed on the task channel (whatever its `error`
flag) signals `workerReleased$` with the message's `taskId` and the worker
`pickTask` dispatched to; other messages do nothing. -/
def exitSubscription (workerId : WorkerId) (m : Msg) (s : PoolState) :
    PoolState × List OutMsg :=
  if m.type == MsgType.Exit then workerReleased workerId m.data.taskId s
  else (s, [])

/-- `WorkersFactory.terminate()`: call `worker.terminate()` on every value
of `workers$.value`; no state field of the factory is written.  The second
component lists the workers whose `terminate()` was invoked. -/
def terminate (s : PoolState) : PoolState × List WorkerId :=
  (s, s.workers)

/-- Result of `getIdleWorkerOrCreate$`: an existing idle worker wrapped in
`of(..)`, a fresh `createWorker$` observable, or `undefined`. -/
inductive GetWorkerResult where
  | idle (workerId : WorkerId)
  | create
  | undef
deriving Repr, DecidableEq

/-- `WorkersFactory.getIdleWorkerOrCreate$(context)`:
`Object.keys(workers$.value).find(id => !busyWorkers$.value.includes(id))`,
else `createWorker$` while `Object.keys(workers$.value).length < poolSize`,
else `undefined`. -/
def getIdleWorkerOrCreate (s : PoolState) : GetWorkerResult :=
  match s.workers.find? (fun workerId => !(s.busyWorkers.contains workerId)) with
  | some workerId => GetWorkerResult.idle workerId
  | none =>
    if s.workers.length < s.poolSize then GetWorkerResult.create
    else GetWorkerResult.undef

/-- Whole-factory state: the pool state plus the bookkeeping of worker
creation that the RxJS pipelines carry implicitly. `created` counts the
`new Worker(url)` constructions performed so far; `installing` lists
spawned workers whose installer has not yet emitted its first `Exit`
(`createWorker$` adds the worker to `workers$.value` only in the `tap`
after `filter(type == 'Exit'), take(1)`); `pendingOnInstall` records, for
each worker spawned from `schedule`'s create branch, the task that the
`worker$.pipe(map(..))` subscription will push and dispatch when that
worker's install `Exit` arrives. -/
structure SysState where
  pool : PoolState
  created : Nat
  installing : List WorkerId
  pendingOnInstall : List (WorkerId × TaskId)
deriving Repr, DecidableEq

/-- Factory state right after the constructor ran: empty pool, no worker
spawned. -/
def initState (poolSize : Nat) : SysState :=
  { pool :=
      { poolSize := poolSize
        workers := []
        busyWorkers := []
        runningTasks := []
        tasksQueue := [] }
    created := 0
    installing := []
    pendingOnInstall := [] }

/-- Subscribing `WorkersFactory.createWorker$(context)`: constructs one
`new Worker(url)` (with the generated id `workerId`) and posts the
installer `Execute` to it; the worker joins `workers$.value` only later,
when its first `Exit` is observed. -/
def createWorkerSpawn (workerId : WorkerId) (s : SysState) :
    SysState × List OutMsg :=
  ({ s with
      created := s.created + 1
      installing := s.installing ++ [workerId] },
   [OutMsg.installExecute workerId])

/-- `WorkersFactory.reserve({workersCount})`:
`forkJoin(new Array(workersCount).fill(undefined).map(() => createWorker$ ..))`
subscribes `createWorker$` once per array element, with no check of the
current pool population or of `poolSize`.  `ids` supplies the
`workersCount` generated worker ids. -/
def reserve (ids : List WorkerId) (s : SysState) : SysState × List OutMsg :=
  ids.foldl
    (fun (acc : SysState × List OutMsg) workerId =>
      let r := createWorkerSpawn workerId acc.1
      (r.1, acc.2 ++ r.2))
    (s, [])

/-- `WorkersFactory.schedule({title, entryPoint, args, targetWorkerId?})`,
state-relevant effects.  `taskId` is the generated task id, `freshId` the
worker id `createWorker$` would generate in the create branch.
With a `targetWorkerId`: throw `Error('Provided workerId not known')` when
it is not a key of `workers$.value`; otherwise push the pinned task and,
when the target is not busy, `pickTask` it.  Without one: ask
`getIdleWorkerOrCreate$`; `undefined` queues the task unpinned; an idle
worker emits synchronously (`of`), so the task is pushed and `pickTask`
runs at once; `createWorker$` spawns a worker now, and the subscription
pushes and dispatches the task only when that worker's install `Exit`
arrives (recorded in `pendingOnInstall`). -/
def schedule (taskId : TaskId) (targetWorkerId : Option WorkerId)
    (freshId : WorkerId) (s : SysState) :
    Except String (SysState × List OutMsg) :=
  match targetWorkerId with
  | some target =>
    if target ∈ s.pool.workers then
      let s1 : SysState :=
        { s with pool :=
            { s.pool with tasksQueue :=
                s.pool.tasksQueue ++ [⟨taskId, some target⟩] } }
      if target ∈ s.pool.busyWorkers then Except.ok (s1, [])
      else
        let r := pickTask target s1.pool
        Except.ok ({ s1 with pool := r.1 }, r.2)
    else Except.error "Provided workerId not known"
  | none =>
    match getIdleWorkerOrCreate s.pool with
    | GetWorkerResult.idle workerId =>
      let s1 : SysState :=
        { s with pool :=
            { s.pool with tasksQueue :=
                s.pool.tasksQueue ++ [⟨taskId, none⟩] } }
      let r := pickTask workerId s1.pool
      Except.ok ({ s1 with pool := r.1 }, r.2)
    | GetWorkerResult.create =>
      let r := createWorkerSpawn freshId s
      Except.ok
        ({ r.1 with pendingOnInstall :=
            r.1.pendingOnInstall ++ [(freshId, taskId)] },
         r.2)
    | GetWorkerResult.undef =>
      Except.ok
        ({ s with pool :=
            { s.pool with tasksQueue :=
                s.pool.tasksQueue ++ [⟨taskId, none⟩] } },
         [])

/-- The first `Exit` of a spawned worker's installer reaches the end of the
`createWorker$` pipeline: the `tap` adds the worker to `workers$.value`
without inspecting the `error` flag of the `Exit`; then `mapTo` emits to
the subscriber, which for a worker spawned from `schedule`'s create branch
pushes the recorded task and runs `pickTask` on the new worker. -/
def installExit (workerId : WorkerId) (error : Bool) (s : SysState) :
    SysState × List OutMsg :=
  if workerId ∈ s.installing then
    let s1 : SysState :=
      { s with
        installing := s.installing.filter (fun x => x != workerId)
        pool := { s.pool with workers := s.pool.workers ++ [workerId] } }
    match s.pendingOnInstall.find? (fun p => p.1 == workerId) with
    | some pending =>
      let s2 : SysState :=
        { s1 with
          pendingOnInstall :=
            s1.pendingOnInstall.filter (fun p => p.1 != workerId)
          pool := { s1.pool with tasksQueue :=
              s1.pool.tasksQueue ++ [⟨pending.2, none⟩] } }
      let r := pickTask workerId s2.pool
      ({ s2 with pool := r.1 }, r.2)
    | none => (s1, [])
  else (s, [])

/-- External events driving one `WorkersFactory`: the public calls
(`reserve`, `schedule`) and the asynchronous message arrivals (a spawned
worker's installer `Exit`; a running task's `Exit`, which fires the
`exitSubscription` → `workerReleased$` chain). -/
inductive Event where
  | reserveEv (ids : List WorkerId)
  | scheduleEv (taskId : TaskId) (targetWorkerId : Option WorkerId)
      (freshId : WorkerId)
  | installExitEv (workerId : WorkerId) (error : Bool)
  | taskExitEv (workerId : WorkerId) (m : Msg)
deriving Repr, DecidableEq

/-- One event step of the factory.  A `schedule` call that throws leaves
the factory state unchanged (the exception propagates to the caller before
any state write). -/
def step (s : SysState) : Event → SysState
  | Event.reserveEv ids => (reserve ids s).1
  | Event.scheduleEv taskId targetWorkerId freshId =>
    match schedule taskId targetWorkerId freshId s with
    | Except.ok r => r.1
    | Except.error _ => s
  | Event.installExitEv workerId error => (installExit workerId error s).1
  | Event.taskExitEv workerId m =>
    let r := exitSubscription workerId m s.pool
    { s with pool := r.1 }

/-- Run a sequence of events from a state. -/
def run (s : SysState) (events : List Event) : SysState :=
  events.foldl step s

/-- RxJS `takeWhile(pred, true)`: emit while `pred` holds and also emit the
first element violating it, then complete. -/
def takeWhileIncl (p : α → Bool) : List α → List α
  | [] => []
  | x :: xs => if p x then x :: takeWhileIncl p xs else [x]

/-- `WorkersFactory.getTaskChannel$(exposedProcess, taskId, context)`, as a
function of the sequence of messages published on `mergedChannel$`:
`filter(message.data.taskId == taskId)` then
`takeWhile(message.type != 'Exit', inclusive := true)`.  (The `Start`,
`Exit` and `Log` subscriptions it also installs only drive `Process`
logging hooks and touch no scheduler state.) -/
def getTaskChannel (taskId : TaskId) (merged : List Msg) : List Msg :=
  takeWhileIncl (fun m => m.type != MsgType.Exit)
    (merged.filter (fun m => m.data.taskId == taskId))

/-- Outcome of calling a task's entry point inside the worker: a plain
return value, a returned promise that resolves, a returned promise that
rejects, or a synchronous throw.  Values and errors are modelled as
naturals. -/
inductive ExecOutcome where
  | value (result : Nat)
  | promiseResolved (result : Nat)
  | promiseRejected (error : Nat)
  | throwsException (error : Nat)
deriving Repr, DecidableEq

/-- `entryPointWorker(messageEvent)`: the `self.onmessage` handler of a
worker, given the `type` of the received message, the `taskId`/`workerId`
of its `data`, and the outcome of the entry-point call.  On `Execute` it
posts `Start`, calls the entry point inside `try`, and posts exactly one
`Exit`: `error:false` with the result when the call returns or its promise
resolves, `error:true` with the error when it throws or rejects.  Any other
message type is ignored. -/
def entryPointWorker (msgType : MsgType) (taskId : TaskId)
    (workerId : WorkerId) (outcome : ExecOutcome) : List Msg :=
  if msgType == MsgType.Execute then
    ⟨MsgType.Start, { taskId := taskId, workerId := workerId }⟩ ::
    (match outcome with
     | ExecOutcome.value r =>
       [⟨MsgType.Exit,
         { taskId := taskId, workerId := workerId, error := false, result := r }⟩]
     | ExecOutcome.promiseResolved r =>
       [⟨MsgType.Exit,
         { taskId := taskId, workerId := workerId, error := false, result := r }⟩]
     | ExecOutcome.promiseRejected e =>
       [⟨MsgType.Exit,
         { taskId := taskId, workerId := workerId, error := true, result := e }⟩]
     | ExecOutcome.throwsException e =>
       [⟨MsgType.Exit,
         { taskId := taskId, workerId := workerId, error := true, result := e }⟩])
  else []

/-! ## Helper lemmas -/

theorem findPred_eq (w : WorkerId) (t : QueuedTask) :
    findPred w t = queueFilterPred w t := by
  cases h : t.targetWorkerId <;> simp [findPred, queueFilterPred, h]

theorem find?_eq_head?_filter (p : α → Bool) (l : List α) :
    l.find? p = (l.filter p).head? := by
  induction l with
  | nil => rfl
  | cons a l ih =>
    by_cases h : p a
    · rw [List.find?_cons_of_pos _ h, List.filter_cons_of_pos h]
      rfl
    · rw [List.find?_cons_of_neg _ h, List.filter_cons_of_neg h]
      exact ih

theorem pickTask_of_empty (w : WorkerId) (s : PoolState)
    (h : s.tasksQueue.filter (queueFilterPred w) = []) :
    pickTask w s = (s, []) := by
  unfold pickTask
  rw [h]
  simp

theorem pickTask_find_eq (w : WorkerId) (s : PoolState) :
    s.tasksQueue.find? (findPred w)
      = (s.tasksQueue.filter (queueFilterPred w)).head? := by
  have hfn : findPred w = queueFilterPred w := funext (findPred_eq w)
  rw [hfn, find?_eq_head?_filter]

theorem pickTask_of_head (w : WorkerId) (s : PoolState) (t : QueuedTask)
    (hw : w ∈ s.workers)
    (ht : (s.tasksQueue.filter (queueFilterPred w)).head? = some t) :
    pickTask w s =
      ({ s with
          busyWorkers := s.busyWorkers ++ [w]
          tasksQueue := s.tasksQueue.filter (fun q => q.taskId != t.taskId)
          runningTasks := s.runningTasks ++ [(w, t.taskId)] },
       [OutMsg.execute w t.taskId]) := by
  have hfind : s.tasksQueue.find? (findPred w) = some t := by
    rw [pickTask_find_eq]; exact ht
  have hne : s.tasksQueue.filter (queueFilterPred w) ≠ [] := by
    intro hcon; rw [hcon] at ht; simp at ht
  have hlen : ((s.tasksQueue.filter (queueFilterPred w)).length == 0) = false := by
    simp [List.length_eq_zero, hne]
  simp [pickTask, hlen, hfind, hw]

theorem pickTask_fst_of_head (w : WorkerId) (s : PoolState) (t : QueuedTask)
    (ht : (s.tasksQueue.filter (queueFilterPred w)).head? = some t) :
    (pickTask w s).1 =
      { s with
          busyWorkers := s.busyWorkers ++ [w]
          tasksQueue := s.tasksQueue.filter (fun q => q.taskId != t.taskId)
          runningTasks := s.runningTasks ++ [(w, t.taskId)] } := by
  have hfind : s.tasksQueue.find? (findPred w) = some t := by
    rw [pickTask_find_eq]; exact ht
  have hne : s.tasksQueue.filter (queueFilterPred w) ≠ [] := by
    intro hcon; rw [hcon] at ht; simp at ht
  have hlen : ((s.tasksQueue.filter (queueFilterPred w)).length == 0) = false := by
    simp [List.length_eq_zero, hne]
  by_cases hw : w ∈ s.workers <;> simp [pickTask, hlen, hfind, hw]

theorem pickTask_sends_le_one (w : WorkerId) (s : PoolState) :
    (pickTask w s).2.length ≤ 1 := by
  unfold pickTask
  split
  · simp
  · split
    · simp
    · split <;> simp

theorem workerReleased_of_empty (w : WorkerId) (tid : TaskId) (s : PoolState)
    (h : s.tasksQueue.filter (queueFilterPred w) = []) :
    workerReleased w tid s =
      ({ s with
          busyWorkers := s.busyWorkers.filter (fun wId => wId != w)
          runningTasks := s.runningTasks.filter (fun task => task.2 != tid) },
       []) := by
  unfold workerReleased
  exact pickTask_of_empty w _ h

theorem workerReleased_of_head (w : WorkerId) (tid : TaskId) (s : PoolState)
    (t : QueuedTask) (hw : w ∈ s.workers)
    (ht : (s.tasksQueue.filter (queueFilterPred w)).head? = some t) :
    workerReleased w tid s =
      ({ s with
          busyWorkers := s.busyWorkers.filter (fun wId => wId != w) ++ [w]
          runningTasks :=
            s.runningTasks.filter (fun task => task.2 != tid) ++ [(w, t.taskId)]
          tasksQueue := s.tasksQueue.filter (fun q => q.taskId != t.taskId) },
       [OutMsg.execute w t.taskId]) := by
  unfold workerReleased
  exact pickTask_of_head w _ t hw ht

theorem takeWhileIncl_subset (p : α → Bool) (l : List α) (x : α)
    (hx : x ∈ takeWhileIncl p l) : x ∈ l := by
  induction l with
  | nil => simp [takeWhileIncl] at hx
  | cons a l ih =>
    by_cases h : p a
    · rw [takeWhileIncl, if_pos h] at hx
      rcases List.mem_cons.mp hx with rfl | hx'
      · exact List.mem_cons_self _ _
      · exact List.mem_cons_of_mem _ (ih hx')
    · rw [takeWhileIncl, if_neg h] at hx
      rcases List.mem_cons.mp hx with rfl | hx'
      · exact List.mem_cons_self _ _
      · simp at hx'

theorem takeWhileIncl_append (p : α → Bool) (l : List α) :
    ∃ rest, l = takeWhileIncl p l ++ rest := by
  induction l with
  | nil => exact ⟨[], rfl⟩
  | cons a l ih =>
    by_cases h : p a
    · obtain ⟨rest, hrest⟩ := ih
      refine ⟨rest, ?_⟩
      rw [takeWhileIncl, if_pos h, List.cons_append]
      exact congrArg (a :: ·) hrest
    · exact ⟨l, by rw [takeWhileIncl, if_neg h]; rfl⟩

theorem takeWhileIncl_countP (p : α → Bool) (l : List α)
    (h : ∃ x ∈ l, p x = false) :
    (takeWhileIncl p l).countP (fun x => !(p x)) = 1 := by
  induction l with
  | nil => simp at h
  | cons a l ih =>
    by_cases hpa : p a
    · rw [takeWhileIncl, if_pos hpa]
      have hl : ∃ x ∈ l, p x = false := by
        obtain ⟨x, hxl, hxp⟩ := h
        rcases List.mem_cons.mp hxl with rfl | hx'
        · rw [hpa] at hxp; cases hxp
        · exact ⟨x, hx', hxp⟩
      rw [List.countP_cons]
      simp [hpa, ih hl]
    · rw [takeWhileIncl, if_neg hpa]
      have : p a = false := Bool.eq_false_iff.mpr hpa
      simp [List.countP_cons, this]

theorem takeWhileIncl_getLast (p : α → Bool) (l : List α)
    (h : ∃ x ∈ l, p x = false) :
    ∃ x, (takeWhileIncl p l).getLast? = some x ∧ p x = false := by
  induction l with
  | nil => simp at h
  | cons a l ih =>
    by_cases hpa : p a
    · have hl : ∃ x ∈ l, p x = false := by
        obtain ⟨x, hxl, hxp⟩ := h
        rcases List.mem_cons.mp hxl with rfl | hx'
        · rw [hpa] at hxp; cases hxp
        · exact ⟨x, hx', hxp⟩
      obtain ⟨x, hx1, hx2⟩ := ih hl
      refine ⟨x, ?_, hx2⟩
      rw [takeWhileIncl, if_pos hpa]
      cases hrec : takeWhileIncl p l with
      | nil => rw [hrec] at hx1; simp at hx1
      | cons b bs =>
        rw [hrec] at hx1
        rw [List.getLast?_cons_cons]
        exact hx1
    · refine ⟨a, ?_, Bool.eq_false_iff.mpr hpa⟩
      rw [takeWhileIncl, if_neg hpa]
      rfl

theorem takeWhileIncl_dropLast (p : α → Bool) (l : List α) :
    ∀ x ∈ (takeWhileIncl p l).dropLast, p x = true := by
  induction l with
  | nil => simp [takeWhileIncl]
  | cons a l ih =>
    by_cases hpa : p a
    · rw [takeWhileIncl, if_pos hpa]
      cases hrec : takeWhileIncl p l with
      | nil => simp
      | cons b bs =>
        rw [List.dropLast_cons₂]
        intro x hx
        rcases List.mem_cons.mp hx with rfl | hx'
        · exact hpa
        · exact ih x (by rw [hrec]; exact hx')
    · rw [takeWhileIncl, if_neg hpa]
      simp

theorem filter_ne_taskId_eq_erase (t : QueuedTask) :
    ∀ l : List QueuedTask, (l.map QueuedTask.taskId).Nodup → t ∈ l →
      l.filter (fun q => q.taskId != t.taskId) = l.erase t := by
  intro l
  induction l with
  | nil => simp
  | cons a l ih =>
    intro hnd hmem
    have hnd' : a.taskId ∉ l.map QueuedTask.taskId ∧
        (l.map QueuedTask.taskId).Nodup := by
      rw [List.map_cons] at hnd
      exact List.nodup_cons.mp hnd
    rcases List.mem_cons.mp hmem with rfl | hmem'
    · rw [List.filter_cons, List.erase_cons_head]
      have h1 : (t.taskId != t.taskId) = false := by simp
      rw [h1]
      simp only [Bool.false_eq_true, if_false]
      apply List.filter_eq_self.mpr
      intro q hq
      have : q.taskId ∈ l.map QueuedTask.taskId := List.mem_map_of_mem _ hq
      have hne : q.taskId ≠ t.taskId := fun he => hnd'.1 (he ▸ this)
      simpa using hne
    · have httid : t.taskId ∈ l.map QueuedTask.taskId :=
        List.mem_map_of_mem _ hmem'
      have hane : a.taskId ≠ t.taskId := fun he => hnd'.1 (he ▸ httid)
      have hat : a ≠ t := fun he => hane (congrArg QueuedTask.taskId he)
      rw [List.filter_cons]
      have h2 : (a.taskId != t.taskId) = true := by simpa using hane
      rw [h2]
      simp only [if_true]
      rw [List.erase_cons_tail (by simpa using hat)]
      exact congrArg (a :: ·) (ih hnd'.2 hmem')

theorem getIdleWorkerOrCreate_idle {s : PoolState} {w : WorkerId}
    (h : getIdleWorkerOrCreate s = GetWorkerResult.idle w) :
    w ∈ s.workers ∧ w ∉ s.busyWorkers := by
  unfold getIdleWorkerOrCreate at h
  cases hf : s.workers.find? (fun x => !(s.busyWorkers.contains x)) with
  | none =>
    rw [hf] at h
    by_cases hlen : s.workers.length < s.poolSize <;> simp [hlen] at h
  | some x =>
    rw [hf] at h
    have hx := GetWorkerResult.idle.inj h
    subst hx
    refine ⟨List.mem_of_find?_eq_some hf, ?_⟩
    have hp := List.find?_some hf
    intro hmem
    simp [hmem] at hp

theorem getIdleWorkerOrCreate_create {s : PoolState}
    (h : getIdleWorkerOrCreate s = GetWorkerResult.create) :
    s.workers.length < s.poolSize := by
  unfold getIdleWorkerOrCreate at h
  cases hf : s.workers.find? (fun x => !(s.busyWorkers.contains x)) with
  | none =>
    rw [hf] at h
    by_cases hlen : s.workers.length < s.poolSize
    · exact hlen
    · simp [hlen] at h
  | some x => rw [hf] at h; cases h

theorem reserve_fst (ids : List WorkerId) (s : SysState) :
    (reserve ids s).1 =
      { s with
          created := s.created + ids.length
          installing := s.installing ++ ids } := by
  suffices hgen : ∀ (ids : List WorkerId) (s : SysState) (acc : List OutMsg),
      (ids.foldl
        (fun (acc : SysState × List OutMsg) workerId =>
          let r := createWorkerSpawn workerId acc.1
          (r.1, acc.2 ++ r.2)) (s, acc)).1 =
      { s with
          created := s.created + ids.length
          installing := s.installing ++ ids } by
    exact hgen ids s []
  intro ids
  induction ids with
  | nil => intro s acc; simp
  | cons a l ih =>
    intro s acc
    rw [List.foldl_cons]
    rw [ih]
    simp [createWorkerSpawn, Nat.add_comm, Nat.add_assoc, Nat.add_left_comm]

theorem run_installExits (ids : List WorkerId) :
    ∀ s : SysState, ids.Nodup → s.pendingOnInstall = [] →
      (∀ w ∈ ids, w ∈ s.installing) →
      (run s (ids.map (fun w => Event.installExitEv w false))).pool.workers
        = s.pool.workers ++ ids := by
  induction ids with
  | nil => intro s _ _ _; simp [run]
  | cons a l ih =>
    intro s hnd hpend hsub
    have ha : a ∈ s.installing := hsub a (List.mem_cons_self a l)
    have hstep : step s (Event.installExitEv a false) =
        { s with
            installing := s.installing.filter (fun x => x != a)
            pool := { s.pool with workers := s.pool.workers ++ [a] } } := by
      show (installExit a false s).1 = _
      unfold installExit
      rw [if_pos ha, hpend]
      rfl
    have hnd' := List.nodup_cons.mp hnd
    have hsub2 : ∀ w ∈ l, w ∈ s.installing.filter (fun x => x != a) := by
      intro w hw
      have hwa : w ≠ a := fun he => hnd'.1 (he ▸ hw)
      simp only [List.mem_filter]
      exact ⟨hsub w (List.mem_cons_of_mem _ hw), by simpa using hwa⟩
    have hih := ih
      { s with
          installing := s.installing.filter (fun x => x != a)
          pool := { s.pool with workers := s.pool.workers ++ [a] } }
      hnd'.2 hpend hsub2
    rw [List.map_cons]
    show (run (step s (Event.installExitEv a false))
        (l.map (fun w => Event.installExitEv w false))).pool.workers = _
    rw [hstep, hih]
    simp

/-! ## Claim theorems -/

/-- Claim C2: for a worker id `w` known to the pool, when at least one
queued task is eligible for `w` (unpinned or pinned to `w`), `pickTask w`
selects the oldest eligible task (the head of the eligibility-filtered
queue), marks `w` busy, removes that task from the pending queue, records
`(w, taskId)` in the running-task index and sends one `Execute`; the chosen
task is itself eligible, so a task pinned to a different worker is never
chosen; when no eligible task exists, `pickTask w` leaves the whole pool
state unchanged and sends nothing, so `w` remains idle. -/
theorem pickTask_dispatch_spec (w : WorkerId) (s : PoolState)
    (hw : w ∈ s.workers) :
    (∀ t, (s.tasksQueue.filter (queueFilterPred w)).head? = some t →
      queueFilterPred w t = true ∧
      pickTask w s =
        ({ s with
            busyWorkers := s.busyWorkers ++ [w]
            tasksQueue := s.tasksQueue.filter (fun q => q.taskId != t.taskId)
            runningTasks := s.runningTasks ++ [(w, t.taskId)] },
         [OutMsg.execute w t.taskId]))
    ∧ (s.tasksQueue.filter (queueFilterPred w) = [] →
        pickTask w s = (s, [])) := by
  constructor
  · intro t ht
    refine ⟨?_, pickTask_of_head w s t hw ht⟩
    have hmem : t ∈ s.tasksQueue.filter (queueFilterPred w) := by
      cases hq : s.tasksQueue.filter (queueFilterPred w) with
      | nil => rw [hq] at ht; cases ht
      | cons b bs =>
        rw [hq] at ht
        have hb : b = t := by simpa using ht
        exact List.mem_cons.mpr (Or.inl hb.symm)
    exact (List.mem_filter.mp hmem).2
  · exact pickTask_of_empty w s

/-- Witness for C2 at a concrete pool: worker `w1` known and idle, two
queued tasks of which the second is pinned to `w1` and the first is
unpinned (hence oldest eligible). -/
theorem pickTask_dispatch_spec_witness :
    pickTask "w1"
      { poolSize := 2, workers := ["w1"], busyWorkers := [],
        runningTasks := [],
        tasksQueue := [⟨"t1", none⟩, ⟨"t2", some "w1"⟩] } =
      ({ poolSize := 2, workers := ["w1"], busyWorkers := ["w1"],
         runningTasks := [("w1", "t1")],
         tasksQueue := [⟨"t2", some "w1"⟩] },
       [OutMsg.execute "w1" "t1"]) := by
  have h :=
    (pickTask_dispatch_spec "w1"
      { poolSize := 2, workers := ["w1"], busyWorkers := [],
        runningTasks := [],
        tasksQueue := [⟨"t1", none⟩, ⟨"t2", some "w1"⟩] }
      (by decide)).1 ⟨"t1", none⟩ (by decide)
  rw [h.2]
  decide

/-- Claim C10: a dispatching `pickTask` removes from the pending queue
exactly the entries whose `taskId` equals the picked task's (`filter` keeps
everything else), the surviving queue is a sublist of the old one (relative
order preserved), at most one `Execute` is sent, and when all queued
`taskId`s are distinct exactly the picked entry is removed
(`filter` coincides with `erase`). -/
theorem pickTask_queue_removal_spec (w : WorkerId) (s : PoolState)
    (t : QueuedTask)
    (ht : (s.tasksQueue.filter (queueFilterPred w)).head? = some t) :
    (∀ q ∈ s.tasksQueue,
      (q ∈ (pickTask w s).1.tasksQueue ↔ q.taskId ≠ t.taskId)) ∧
    (pickTask w s).1.tasksQueue.Sublist s.tasksQueue ∧
    (pickTask w s).2.length ≤ 1 ∧
    ((s.tasksQueue.map QueuedTask.taskId).Nodup →
      (pickTask w s).1.tasksQueue = s.tasksQueue.erase t) := by
  have hfst := pickTask_fst_of_head w s t ht
  have htq : (pickTask w s).1.tasksQueue =
      s.tasksQueue.filter (fun q => q.taskId != t.taskId) := by
    rw [hfst]
  have hmem : t ∈ s.tasksQueue := by
    have : t ∈ s.tasksQueue.filter (queueFilterPred w) := by
      cases hq : s.tasksQueue.filter (queueFilterPred w) with
      | nil => rw [hq] at ht; cases ht
      | cons b bs =>
        rw [hq] at ht
        have hb : b = t := by simpa using ht
        exact List.mem_cons.mpr (Or.inl hb.symm)
    exact (List.mem_filter.mp this).1
  refine ⟨?_, ?_, pickTask_sends_le_one w s, ?_⟩
  · intro q hq
    rw [htq]
    constructor
    · intro hq'
      have := (List.mem_filter.mp hq').2
      simpa using this
    · intro hne
      exact List.mem_filter.mpr ⟨hq, by simpa using hne⟩
  · rw [htq]
    exact List.filter_sublist _
  · intro hnd
    rw [htq]
    exact filter_ne_taskId_eq_erase t s.tasksQueue hnd hmem

/-- Witness for C10: two queue entries sharing the taskId `t1`; the
dispatching `pickTask` removes both while sending a single `Execute`. -/
theorem pickTask_queue_removal_spec_witness :
    (⟨"t1", some "w9"⟩ ∈
        (pickTask "w1"
          { poolSize := 2, workers := ["w1"], busyWorkers := [],
            runningTasks := [],
            tasksQueue :=
              [⟨"t1", none⟩, ⟨"t2", none⟩, ⟨"t1", some "w9"⟩] }).1.tasksQueue
      ↔ ("t1" : String) ≠ "t1") ∧
    (pickTask "w1"
      { poolSize := 2, workers := ["w1"], busyWorkers := [],
        runningTasks := [],
        tasksQueue :=
          [⟨"t1", none⟩, ⟨"t2", none⟩, ⟨"t1", some "w9"⟩] }).2.length ≤ 1 := by
  have h :=
    pickTask_queue_removal_spec "w1"
      { poolSize := 2, workers := ["w1"], busyWorkers := [],
        runningTasks := [],
        tasksQueue := [⟨"t1", none⟩, ⟨"t2", none⟩, ⟨"t1", some "w9"⟩] }
      ⟨"t1", none⟩ (by decide)
  exact ⟨h.1 ⟨"t1", some "w9"⟩ (by decide), h.2.2.1⟩

/-- Claim C4: whenever an `Exit` message for a dispatched task is observed
on its task channel — with either value of the `error` flag — the
subscription releases the worker: it is removed from the busy set and the
task from the running-task index, and `pickTask` runs at once on that
worker; with no eligible queued task the worker stays idle (not in the
busy set) and nothing else changes, and with at least one eligible queued
task the worker goes straight back to busy with the oldest eligible
task. -/
theorem exit_release_spec (w : WorkerId) (m : Msg) (s : PoolState)
    (hm : m.type = MsgType.Exit) :
    ((s.tasksQueue.filter (queueFilterPred w) = [] →
      exitSubscription w m s =
        ({ s with
            busyWorkers := s.busyWorkers.filter (fun wId => wId != w)
            runningTasks :=
              s.runningTasks.filter (fun task => task.2 != m.data.taskId) },
         []) ∧
      w ∉ (exitSubscription w m s).1.busyWorkers)
    ∧ (∀ t, (s.tasksQueue.filter (queueFilterPred w)).head? = some t →
        w ∈ s.workers →
        exitSubscription w m s =
          ({ s with
              busyWorkers := s.busyWorkers.filter (fun wId => wId != w) ++ [w]
              runningTasks :=
                s.runningTasks.filter (fun task => task.2 != m.data.taskId)
                  ++ [(w, t.taskId)]
              tasksQueue := s.tasksQueue.filter (fun q => q.taskId != t.taskId) },
           [OutMsg.execute w t.taskId]) ∧
        w ∈ (exitSubscription w m s).1.busyWorkers)) := by
  have hsub : exitSubscription w m s = workerReleased w m.data.taskId s := by
    unfold exitSubscription
    rw [if_pos (by simpa using hm)]
  constructor
  · intro hq
    rw [hsub, workerReleased_of_empty w m.data.taskId s hq]
    refine ⟨rfl, ?_⟩
    intro hcon
    have := (List.mem_filter.mp hcon).2
    simp at this
  · intro t ht hw
    rw [hsub, workerReleased_of_head w m.data.taskId s t hw ht]
    exact ⟨rfl, by simp⟩

/-- Witness for C4: an error `Exit` for task `t0` on worker `w1` releases
`w1` (busy set emptied, running index emptied) and immediately re-busies it
with the queued eligible task `t1`. -/
theorem exit_release_spec_witness :
    exitSubscription "w1"
      ⟨MsgType.Exit, { taskId := "t0", workerId := "w1", error := true }⟩
      { poolSize := 2, workers := ["w1"], busyWorkers := ["w1"],
        runningTasks := [("w1", "t0")],
        tasksQueue := [⟨"t1", none⟩] } =
      ({ poolSize := 2, workers := ["w1"], busyWorkers := ["w1"],
         runningTasks := [("w1", "t1")],
         tasksQueue := [] },
       [OutMsg.execute "w1" "t1"]) := by
  have h :=
    (exit_release_spec "w1"
      ⟨MsgType.Exit, { taskId := "t0", workerId := "w1", error := true }⟩
      { poolSize := 2, workers := ["w1"], busyWorkers := ["w1"],
        runningTasks := [("w1", "t0")],
        tasksQueue := [⟨"t1", none⟩] }
      rfl).2 ⟨"t1", none⟩ (by decide) (by decide)
  rw [h.1]
  decide

/-- Claim C8: handling an `Execute`, the worker entry point posts exactly
one `Exit` for the task, carrying `error:true` and the thrown/rejected
error when the task's entry point throws or its promise rejects, and
`error:false` with the result when it returns or resolves; and for any
`Exit` message observed afterwards (either error flag), the release path
leaves the worker out of the busy set when no further eligible task is
queued — a failing task does not poison its unit. -/
theorem entryPointWorker_exit_spec (tid : TaskId) (wid : WorkerId)
    (outcome : ExecOutcome) (w : WorkerId) (s : PoolState)
    (hq : s.tasksQueue.filter (queueFilterPred w) = []) :
    ((entryPointWorker MsgType.Execute tid wid outcome).countP
        (fun m => m.type == MsgType.Exit) = 1) ∧
    (∀ e, outcome = ExecOutcome.throwsException e ∨
          outcome = ExecOutcome.promiseRejected e →
      (entryPointWorker MsgType.Execute tid wid outcome).getLast? =
        some ⟨MsgType.Exit,
          { taskId := tid, workerId := wid, error := true, result := e }⟩) ∧
    (∀ r, outcome = ExecOutcome.value r ∨
          outcome = ExecOutcome.promiseResolved r →
      (entryPointWorker MsgType.Execute tid wid outcome).getLast? =
        some ⟨MsgType.Exit,
          { taskId := tid, workerId := wid, error := false, result := r }⟩) ∧
    (∀ m ∈ entryPointWorker MsgType.Execute tid wid outcome,
        m.data.taskId = tid) ∧
    (∀ m : Msg, m.type = MsgType.Exit →
        w ∉ (exitSubscription w m s).1.busyWorkers) := by
  refine ⟨?_, ?_, ?_, ?_, ?_⟩
  · cases outcome <;> simp [entryPointWorker, List.countP_cons]
  · intro e he
    rcases he with rfl | rfl <;> simp [entryPointWorker]
  · intro r hr
    rcases hr with rfl | rfl <;> simp [entryPointWorker]
  · intro m hm
    cases outcome <;> simp [entryPointWorker] at hm <;>
      rcases hm with rfl | rfl <;> rfl
  · intro m hm
    have hsub : exitSubscription w m s = workerReleased w m.data.taskId s := by
      unfold exitSubscription
      rw [if_pos (by simpa using hm)]
    rw [hsub, workerReleased_of_empty w m.data.taskId s hq]
    intro hcon
    have := (List.mem_filter.mp hcon).2
    simp at this

/-- Witness for C8: a rejected promise with error value 7 yields the
single message sequence `[Start, Exit{error:true, result:7}]`, and an
`Exit` observed on a pool whose queue is empty leaves the worker idle. -/
theorem entryPointWorker_exit_spec_witness :
    (entryPointWorker MsgType.Execute "t1" "w1"
        (ExecOutcome.promiseRejected 7)).getLast? =
      some ⟨MsgType.Exit,
        { taskId := "t1", workerId := "w1", error := true, result := 7 }⟩ ∧
    ("w1" : String) ∉
      (exitSubscription "w1"
        ⟨MsgType.Exit, { taskId := "t1", workerId := "w1", error := true }⟩
        { poolSize := 2, workers := ["w1"], busyWorkers := ["w1"],
          runningTasks := [("w1", "t1")], tasksQueue := [] }).1.busyWorkers := by
  have h :=
    entryPointWorker_exit_spec "t1" "w1" (ExecOutcome.promiseRejected 7) "w1"
      { poolSize := 2, workers := ["w1"], busyWorkers := ["w1"],
        runningTasks := [("w1", "t1")], tasksQueue := [] }
      (by decide)
  exact ⟨h.2.1 7 (Or.inr rfl),
    h.2.2.2.2 ⟨MsgType.Exit,
      { taskId := "t1", workerId := "w1", error := true }⟩ rfl⟩

/-- Claim C3: the per-task channel built by `getTaskChannel$` from the
pool-wide merged stream contains only messages whose `data.taskId` equals
the task's id, is an order-preserving prefix of the id-filtered merged
stream, ends exactly at the first `Exit` for that id (its last element is
an `Exit`, no earlier element is one, and exactly one `Exit` is counted),
so no message follows the `Exit`. -/
theorem getTaskChannel_spec (tid : TaskId) (merged : List Msg)
    (h : ∃ m ∈ merged, m.data.taskId = tid ∧ m.type = MsgType.Exit) :
    (∀ m ∈ getTaskChannel tid merged, m.data.taskId = tid) ∧
    (getTaskChannel tid merged).countP (fun m => m.type == MsgType.Exit) = 1 ∧
    (∃ m, (getTaskChannel tid merged).getLast? = some m ∧
      m.type = MsgType.Exit) ∧
    (∃ rest, merged.filter (fun m => m.data.taskId == tid) =
      getTaskChannel tid merged ++ rest) ∧
    (∀ m ∈ (getTaskChannel tid merged).dropLast, m.type ≠ MsgType.Exit) := by
  obtain ⟨m0, hm0, hm0tid, hm0ty⟩ := h
  have hfneg : ∃ x ∈ merged.filter (fun m => m.data.taskId == tid),
      (fun m : Msg => m.type != MsgType.Exit) x = false := by
    refine ⟨m0, List.mem_filter.mpr ⟨hm0, by simpa using hm0tid⟩, ?_⟩
    simp [hm0ty]
  refine ⟨?_, ?_, ?_, ?_, ?_⟩
  · intro m hm
    have hmem := takeWhileIncl_subset _ _ m hm
    have := (List.mem_filter.mp hmem).2
    simpa using this
  · have hc := takeWhileIncl_countP _ _ hfneg
    unfold getTaskChannel
    rw [List.countP_congr ?_]
    · exact hc
    · intro a _
      cases h : a.type == MsgType.Exit <;> simp [bne, h]
  · obtain ⟨x, hx1, hx2⟩ := takeWhileIncl_getLast _ _ hfneg
    exact ⟨x, hx1, by simpa using hx2⟩
  · exact takeWhileIncl_append _ _
  · intro m hm
    unfold getTaskChannel at hm
    have := takeWhileIncl_dropLast (fun m : Msg => m.type != MsgType.Exit)
      (merged.filter (fun m => m.data.taskId == tid)) m hm
    simpa using this

/-- Witness for C3 on a concrete merged stream with two interleaved tasks:
the channel for `t1` keeps `t1`'s messages only, up to and including its
(error) `Exit`, and drops the later `Data` message for `t1`. -/
theorem getTaskChannel_spec_witness :
    (∀ m ∈ getTaskChannel "t1"
        [⟨MsgType.Start, { taskId := "t1", workerId := "w1" }⟩,
         ⟨MsgType.Log, { taskId := "t2", workerId := "w2" }⟩,
         ⟨MsgType.Exit, { taskId := "t1", workerId := "w1", error := true }⟩,
         ⟨MsgType.Data, { taskId := "t1", workerId := "w1" }⟩],
      m.data.taskId = "t1") ∧
    (getTaskChannel "t1"
        [⟨MsgType.Start, { taskId := "t1", workerId := "w1" }⟩,
         ⟨MsgType.Log, { taskId := "t2", workerId := "w2" }⟩,
         ⟨MsgType.Exit, { taskId := "t1", workerId := "w1", error := true }⟩,
         ⟨MsgType.Data, { taskId := "t1", workerId := "w1" }⟩]).countP
      (fun m => m.type == MsgType.Exit) = 1 := by
  have h :=
    getTaskChannel_spec "t1"
      [⟨MsgType.Start, { taskId := "t1", workerId := "w1" }⟩,
       ⟨MsgType.Log, { taskId := "t2", workerId := "w2" }⟩,
       ⟨MsgType.Exit, { taskId := "t1", workerId := "w1", error := true }⟩,
       ⟨MsgType.Data, { taskId := "t1", workerId := "w1" }⟩]
      ⟨⟨MsgType.Exit, { taskId := "t1", workerId := "w1", error := true }⟩,
        by decide, rfl, rfl⟩
  exact ⟨h.1, h.2.1⟩

/-- Claim C6: a `schedule` whose `targetWorkerId` is not a key of the
current workers map throws `Error('Provided workerId not known')`
synchronously (modelled by `Except.error`), and the factory state — workers
map, busy set, running-task index, pending queue, creation bookkeeping — is
exactly what it was before the call. -/
theorem schedule_unknown_target_spec (tid : TaskId) (target freshId : WorkerId)
    (s : SysState) (hw : target ∉ s.pool.workers) :
    schedule tid (some target) freshId s =
      Except.error "Provided workerId not known" ∧
    step s (Event.scheduleEv tid (some target) freshId) = s := by
  have h1 : schedule tid (some target) freshId s =
      Except.error "Provided workerId not known" := by
    show (if target ∈ s.pool.workers then _ else _) = _
    rw [if_neg hw]
  exact ⟨h1, by simp [step, h1]⟩

/-- Witness for C6: scheduling pinned to `w1` on a fresh empty pool. -/
theorem schedule_unknown_target_spec_witness :
    schedule "t1" (some "w1") "wf" (initState 4) =
      Except.error "Provided workerId not known" ∧
    step (initState 4) (Event.scheduleEv "t1" (some "w1") "wf") =
      initState 4 :=
  schedule_unknown_target_spec "t1" "w1" "wf" (initState 4) (by decide)

/-- Claim C1 as frozen is refuted by the code: `reserve` subscribes
`createWorker$` once per requested unit without consulting the pool
population or `poolSize`, so on a factory of capacity 1 the single call
sequence `[reserve({workersCount: 2})]` creates 2 execution units. -/
theorem capacity_ceiling_counterexample :
    (run (initState 1) [Event.reserveEv ["w1", "w2"]]).created = 2 ∧
    (run (initState 1) [Event.reserveEv ["w1", "w2"]]).pool.poolSize = 1 ∧
    ¬((run (initState 1) [Event.reserveEv ["w1", "w2"]]).created ≤
      (run (initState 1) [Event.reserveEv ["w1", "w2"]]).pool.poolSize) := by
  decide

/-- Claim C1 amended: the capacity ceiling is enforced by `schedule` only —
when the workers map already holds at least `poolSize` units, scheduling an
unpinned task never creates a unit (`created` and `installing` are
untouched), and when additionally every unit is busy the task is appended
to the pending queue and no message is sent.  (`reserve` bypasses the
ceiling, as the counterexample shows.) -/
theorem schedule_capacity_spec (tid : TaskId) (freshId : WorkerId)
    (s : SysState) (hcap : s.pool.poolSize ≤ s.pool.workers.length) :
    ∃ r, schedule tid none freshId s = Except.ok r ∧
      r.1.created = s.created ∧
      r.1.installing = s.installing ∧
      ((∀ w ∈ s.pool.workers, w ∈ s.pool.busyWorkers) →
        r.1.pool.tasksQueue = s.pool.tasksQueue ++ [⟨tid, none⟩] ∧
        r.2 = []) := by
  cases hg : getIdleWorkerOrCreate s.pool with
  | idle w =>
    obtain ⟨hwmem, hwidle⟩ := getIdleWorkerOrCreate_idle hg
    have hs : schedule tid none freshId s =
        Except.ok
          (let s1 : SysState :=
            { s with pool :=
                { s.pool with tasksQueue :=
                    s.pool.tasksQueue ++ [⟨tid, none⟩] } }
           let r := pickTask w s1.pool
           ({ s1 with pool := r.1 }, r.2)) := by
      unfold schedule
      rw [hg]
    refine ⟨_, hs, rfl, rfl, ?_⟩
    intro hbusy
    exact absurd (hbusy w hwmem) hwidle
  | create =>
    exact absurd (getIdleWorkerOrCreate_create hg) (Nat.not_lt.mpr hcap)
  | undef =>
    have hs : schedule tid none freshId s =
        Except.ok
          ({ s with pool :=
              { s.pool with tasksQueue :=
                  s.pool.tasksQueue ++ [⟨tid, none⟩] } },
           []) := by
      unfold schedule
      rw [hg]
    exact ⟨_, hs, rfl, rfl, fun _ => ⟨rfl, rfl⟩⟩

/-- Witness for the amended C1 at a full, busy pool of capacity 1. -/
theorem schedule_capacity_spec_witness :
    ∃ r, schedule "t1" none "wf"
        { pool :=
            { poolSize := 1, workers := ["w1"], busyWorkers := ["w1"],
              runningTasks := [("w1", "t0")], tasksQueue := [] },
          created := 1, installing := [], pendingOnInstall := [] } =
      Except.ok r ∧
      r.1.created = 1 ∧
      r.1.installing = [] ∧
      ((∀ w ∈ ["w1"], w ∈ ["w1"]) →
        r.1.pool.tasksQueue = [] ++ [⟨"t1", none⟩] ∧ r.2 = []) :=
  schedule_capacity_spec "t1" "wf"
    { pool :=
        { poolSize := 1, workers := ["w1"], busyWorkers := ["w1"],
          runningTasks := [("w1", "t0")], tasksQueue := [] },
      created := 1, installing := [], pendingOnInstall := [] }
    (by decide)

/-- Claim C7 as frozen is refuted by the code: `reserve` never checks how
many units already exist.  On a capacity-2 pool holding 1 installed unit,
`reserve({workersCount: 1})` — where one unit "already exists" — spawns a
second unit instead of creating none, and after its install completes the
pool holds 2 units, not exactly `n = 1`. -/
theorem reserve_shortfall_counterexample :
    (run (initState 2)
      [Event.reserveEv ["w0"],
       Event.installExitEv "w0" false]).pool.workers.length = 1 ∧
    (run (initState 2)
      [Event.reserveEv ["w0"], Event.installExitEv "w0" false,
       Event.reserveEv ["w1"]]).created = 2 ∧
    (run (initState 2)
      [Event.reserveEv ["w0"], Event.installExitEv "w0" false,
       Event.reserveEv ["w1"],
       Event.installExitEv "w1" false]).pool.workers.length = 2 := by
  decide

/-- Claim C7 amended: `reserve(n)` unconditionally spawns `n` fresh units
(one `createWorker$` subscription per requested unit, regardless of the
existing population or capacity), leaving the pool state itself untouched;
once all `n` installer `Exit`s arrive, the workers map holds the previous
units plus the `n` new ones. -/
theorem reserve_spawn_spec (ids : List WorkerId) (s : SysState)
    (hnd : ids.Nodup) (hinst : s.installing = [])
    (hpend : s.pendingOnInstall = []) :
    (reserve ids s).1.created = s.created + ids.length ∧
    (reserve ids s).1.pool = s.pool ∧
    (run (reserve ids s).1
        (ids.map (fun w => Event.installExitEv w false))).pool.workers
      = s.pool.workers ++ ids := by
  have hf := reserve_fst ids s
  refine ⟨by rw [hf], by rw [hf], ?_⟩
  rw [hf]
  refine run_installExits ids _ hnd hpend ?_
  intro w hw
  show w ∈ s.installing ++ ids
  rw [hinst]
  simpa using hw

/-- Witness for the amended C7: reserving two workers on a fresh pool of
capacity 3. -/
theorem reserve_spawn_spec_witness :
    (reserve ["w1", "w2"] (initState 3)).1.created = 0 + 2 ∧
    (reserve ["w1", "w2"] (initState 3)).1.pool = (initState 3).pool ∧
    (run (reserve ["w1", "w2"] (initState 3)).1
        (["w1", "w2"].map (fun w => Event.installExitEv w false))).pool.workers
      = (initState 3).pool.workers ++ ["w1", "w2"] :=
  reserve_spawn_spec ["w1", "w2"] (initState 3) (by decide) rfl rfl

/-- Claim C5 as frozen is refuted by the code: the `createWorker$` pipeline
registers the worker in `workers$.value` on the FIRST installer `Exit`
without inspecting its `error` flag.  After an installer failure
(`Exit{error:true}`) the unit `w1` is in the workers map, and a subsequent
`schedule` pinned to it silently dispatches `Execute` to it as if ready. -/
theorem install_failure_counterexample :
    ("w1" ∈ (run (initState 1)
        [Event.reserveEv ["w1"],
         Event.installExitEv "w1" true]).pool.workers) ∧
    schedule "t5" (some "w1") "wf"
        (run (initState 1)
          [Event.reserveEv ["w1"], Event.installExitEv "w1" true]) =
      Except.ok
        ({ pool :=
            { poolSize := 1, workers := ["w1"], busyWorkers := ["w1"],
              runningTasks := [("w1", "t5")], tasksQueue := [] },
           created := 1, installing := [], pendingOnInstall := [] },
         [OutMsg.execute "w1" "t5"]) := by
  exact ⟨by decide, by rfl⟩

/-- Claim C5 amended: a newly created unit joins the workers map — becoming
idle and eligible for dispatch — upon the FIRST `Exit` emitted by its
installer, whatever the `error` flag; an installer whose promise rejects
does surface as `Exit{error:true}` on the installer's own task, but the
unit nevertheless becomes dispatch-eligible rather than staying unusable. -/
theorem install_exit_amended_spec (w : WorkerId) (err : Bool) (s : SysState)
    (tid : TaskId) (e : Nat)
    (hin : w ∈ s.installing) (hpend : s.pendingOnInstall = []) :
    w ∈ (installExit w err s).1.pool.workers ∧
    (entryPointWorker MsgType.Execute tid w
        (ExecOutcome.promiseRejected e)).getLast? =
      some ⟨MsgType.Exit,
        { taskId := tid, workerId := w, error := true, result := e }⟩ := by
  constructor
  · unfold installExit
    rw [if_pos hin, hpend]
    simp
  · simp [entryPointWorker]

/-- Witness for the amended C5: worker `w1` with a failed install
(`err = true`) still joins the workers map. -/
theorem install_exit_amended_spec_witness :
    ("w1" ∈ (installExit "w1" true
        { pool :=
            { poolSize := 1, workers := [], busyWorkers := [],
              runningTasks := [], tasksQueue := [] },
          created := 1, installing := ["w1"],
          pendingOnInstall := [] }).1.pool.workers) ∧
    (entryPointWorker MsgType.Execute "t1" "w1"
        (ExecOutcome.promiseRejected 7)).getLast? =
      some ⟨MsgType.Exit,
        { taskId := "t1", workerId := "w1", error := true, result := 7 }⟩ :=
  install_exit_amended_spec "w1" true
    { pool :=
        { poolSize := 1, workers := [], busyWorkers := [],
          runningTasks := [], tasksQueue := [] },
      created := 1, installing := ["w1"], pendingOnInstall := [] }
    "t1" 7 (by decide) rfl

theorem schedule_pinned_ok (tid : TaskId) (target freshId : WorkerId)
    (s : SysState) (hw : target ∈ s.pool.workers) :
    ∃ r, schedule tid (some target) freshId s = Except.ok r := by
  by_cases hb : target ∈ s.pool.busyWorkers
  · have h : schedule tid (some target) freshId s =
        Except.ok
          ({ s with pool :=
              { s.pool with tasksQueue :=
                  s.pool.tasksQueue ++ [⟨tid, some target⟩] } },
           []) := by
      show (if target ∈ s.pool.workers then _ else _) = _
      rw [if_pos hw]
      show (if target ∈ s.pool.busyWorkers then _ else _) = _
      rw [if_pos hb]
    exact ⟨_, h⟩
  · have h : schedule tid (some target) freshId s =
        Except.ok
          ({ s with pool :=
              (pickTask target
                { s.pool with tasksQueue :=
                    s.pool.tasksQueue ++ [⟨tid, some target⟩] }).1 },
           (pickTask target
              { s.pool with tasksQueue :=
                  s.pool.tasksQueue ++ [⟨tid, some target⟩] }).2) := by
      show (if target ∈ s.pool.workers then _ else _) = _
      rw [if_pos hw]
      show (if target ∈ s.pool.busyWorkers then _ else _) = _
      rw [if_neg hb]
    exact ⟨_, h⟩

/-- Claim C9: `terminate()` invokes `worker.terminate()` on exactly the
workers of the current map but writes no factory state: workers map, busy
set, running-task index and pending queue keep their previous values, and
every terminated worker is still a pool member that a later pinned
`schedule` accepts (returns the task stream rather than throwing). -/
theorem terminate_frame_spec (s : SysState) :
    (terminate s.pool).1.workers = s.pool.workers ∧
    (terminate s.pool).1.busyWorkers = s.pool.busyWorkers ∧
    (terminate s.pool).1.runningTasks = s.pool.runningTasks ∧
    (terminate s.pool).1.tasksQueue = s.pool.tasksQueue ∧
    (terminate s.pool).2 = s.pool.workers ∧
    (∀ w ∈ s.pool.workers,
      w ∈ (terminate s.pool).1.workers ∧
      ∀ tid freshId, ∃ r,
        schedule tid (some w) freshId
          { s with pool := (terminate s.pool).1 } = Except.ok r) := by
  refine ⟨rfl, rfl, rfl, rfl, rfl, ?_⟩
  intro w hw
  refine ⟨hw, ?_⟩
  intro tid freshId
  exact schedule_pinned_ok tid w freshId
    { s with pool := (terminate s.pool).1 } hw

/-- Witness for C9 on a one-worker pool with a busy worker and a queued
task. -/
theorem terminate_frame_spec_witness :
    (terminate
      { poolSize := 2, workers := ["w1"], busyWorkers := ["w1"],
        runningTasks := [("w1", "t0")],
        tasksQueue := [⟨"t1", none⟩] }).1.workers = ["w1"] ∧
    (terminate
      { poolSize := 2, workers := ["w1"], busyWorkers := ["w1"],
        runningTasks := [("w1", "t0")],
        tasksQueue := [⟨"t1", none⟩] }).2 = ["w1"] ∧
    ∃ r, schedule "t2" (some "w1") "wf"
        { pool := (terminate
            { poolSize := 2, workers := ["w1"], busyWorkers := ["w1"],
              runningTasks := [("w1", "t0")],
              tasksQueue := [⟨"t1", none⟩] }).1,
          created := 1, installing := [], pendingOnInstall := [] } =
      Except.ok r := by
  have h := terminate_frame_spec
    { pool :=
        { poolSize := 2, workers := ["w1"], busyWorkers := ["w1"],
          runningTasks := [("w1", "t0")], tasksQueue := [⟨"t1", none⟩] },
      created := 1, installing := [], pendingOnInstall := [] }
  have h2 := (h.2.2.2.2.2 "w1" (by decide)).2 "t2" "wf"
  exact ⟨h.1, h.2.2.2.2.1, h2⟩
